import Mathlib

/-!
Verification development for the "sharat-lifemap" location-history
visualizer.  The definitions below are shallow embeddings, over `ℚ` and
`ℝ`, of the trajectory-processing core found in
`src/components/LifeChapters.jsx` (trip sanitizing, timeline encoding,
grid aggregation, time-to-color mapping), `src/components/Legend.jsx`
(distance statistics) and `src/App.jsx` (the range-scrub playback
clock).  JavaScript numbers are idealized as exact rationals wherever
the code only adds, multiplies, divides and compares, and as real
numbers where the code calls the trigonometric haversine formula.
-/

namespace LifeMap

/-! ### GeoMath: `Math.atan2` and the haversine distance

`haversineKm` mirrors the inline `haversineDistance` helper that appears
(with identical bodies) in `LifeChapters.jsx` and `Legend.jsx`:
radius 6371 km, `a = sin²(dLat/2) + cos φ₁ · cos φ₂ · sin²(dLon/2)`,
`c = 2·atan2(√a, √(1-a))`.  Coordinates are `[lon, lat]` pairs. -/

noncomputable def atan2 (y x : ℝ) : ℝ :=
  if 0 < x then Real.arctan (y / x)
  else if x < 0 then
    (if 0 ≤ y then Real.arctan (y / x) + Real.pi else Real.arctan (y / x) - Real.pi)
  else
    (if 0 < y then Real.pi / 2 else if y < 0 then -(Real.pi / 2) else 0)

/-- The intermediate quantity `a` of the haversine formula. -/
noncomputable def havA (c1 c2 : ℝ × ℝ) : ℝ :=
  Real.sin ((c2.2 - c1.2) * Real.pi / 180 / 2) *
      Real.sin ((c2.2 - c1.2) * Real.pi / 180 / 2) +
    Real.cos (c1.2 * Real.pi / 180) * Real.cos (c2.2 * Real.pi / 180) *
      Real.sin ((c2.1 - c1.1) * Real.pi / 180 / 2) *
      Real.sin ((c2.1 - c1.1) * Real.pi / 180 / 2)

noncomputable def haversineKm (c1 c2 : ℝ × ℝ) : ℝ :=
  6371 * (2 * atan2 (Real.sqrt (havA c1 c2)) (Real.sqrt (1 - havA c1 c2)))

theorem arctan_nonneg {x : ℝ} (hx : 0 ≤ x) : 0 ≤ Real.arctan x := by
  have := Real.arctan_strictMono.monotone hx
  rwa [Real.arctan_zero] at this

theorem atan2_nonneg {y x : ℝ} (hy : 0 ≤ y) (hx : 0 ≤ x) : 0 ≤ atan2 y x := by
  unfold atan2
  rcases lt_or_eq_of_le hx with hx' | hx'
  · rw [if_pos hx']
    exact arctan_nonneg (div_nonneg hy hx'.le)
  · rw [if_neg (by simp [← hx']), if_neg (by simp [← hx'])]
    rcases lt_or_eq_of_le hy with hy' | hy'
    · rw [if_pos hy']
      positivity
    · rw [if_neg (by simp [← hy']), if_neg (by simp [← hy'])]

theorem haversineKm_nonneg (c1 c2 : ℝ × ℝ) : 0 ≤ haversineKm c1 c2 := by
  unfold haversineKm
  have h := atan2_nonneg (Real.sqrt_nonneg (havA c1 c2))
    (Real.sqrt_nonneg (1 - havA c1 c2))
  positivity

theorem havA_self (c : ℝ × ℝ) : havA c c = 0 := by
  unfold havA
  simp

theorem haversineKm_self (c : ℝ × ℝ) : haversineKm c c = 0 := by
  unfold haversineKm atan2
  rw [havA_self]
  simp [Real.sqrt_one]

/-- The concrete longitude offset (in degrees) whose haversine distance
from the origin along the equator is exactly 500 km. -/
noncomputable def lon500 : ℝ := 90000 / (6371 * Real.pi)

theorem haversineKm_lon500 : haversineKm (0, 0) (lon500, 0) = 500 := by
  have hpi := Real.pi_gt_three
  have hu0 : (0 : ℝ) < 250 / 6371 := by norm_num
  have hu1 : (250 : ℝ) / 6371 < Real.pi / 2 := by nlinarith
  have hsin : 0 ≤ Real.sin (250 / 6371) :=
    Real.sin_nonneg_of_nonneg_of_le_pi hu0.le (by nlinarith)
  have hcos : 0 < Real.cos (250 / 6371) :=
    Real.cos_pos_of_mem_Ioo ⟨by nlinarith, hu1⟩
  have hπ : Real.pi ≠ 0 := by positivity
  have hA : havA (0, 0) (lon500, 0) =
      Real.sin (250 / 6371) * Real.sin (250 / 6371) := by
    unfold havA lon500
    have hdLon : (90000 / (6371 * Real.pi) - 0) * Real.pi / 180 / 2 = 250 / 6371 := by
      field_simp
      ring
    rw [hdLon]
    norm_num
  unfold haversineKm atan2
  rw [hA]
  have hs2 : Real.sin (250 / 6371) * Real.sin (250 / 6371) =
      Real.sin (250 / 6371) ^ 2 := by ring
  have hsqa : Real.sqrt (Real.sin (250 / 6371) * Real.sin (250 / 6371)) =
      Real.sin (250 / 6371) := by
    rw [hs2, Real.sqrt_sq hsin]
  have hcos2 : 1 - Real.sin (250 / 6371) * Real.sin (250 / 6371) =
      Real.cos (250 / 6371) ^ 2 := by
    have := Real.sin_sq_add_cos_sq (250 / 6371)
    nlinarith
  have hsqb : Real.sqrt (1 - Real.sin (250 / 6371) * Real.sin (250 / 6371)) =
      Real.cos (250 / 6371) := by
    rw [hcos2, Real.sqrt_sq hcos.le]
  rw [hsqa, hsqb, if_pos hcos]
  have htan : Real.sin (250 / 6371) / Real.cos (250 / 6371) =
      Real.tan (250 / 6371) := (Real.tan_eq_sin_div_cos _).symm
  rw [htan, Real.arctan_tan (by nlinarith) hu1]
  norm_num

/-! ### TripSanitizer (`timeFilteredTrips` in `LifeChapters.jsx`)

A trip is an ordered path of timestamped coordinates.  The sanitizer
(1) drops trips with fewer than 2 path points, (2) keeps trips whose
time span intersects the selected window, (3) sorts by start timestamp
and (4) greedily removes overlapping duplicates: whenever two trips
overlap by more than 50% of either one's duration, the one with fewer
path points is dropped (ties keep the earlier trip). -/

structure TPoint where
  coordinates : ℚ × ℚ
  timestamp : ℚ
deriving DecidableEq

structure Trip where
  path : List TPoint
  activityType : Option String := none
deriving DecidableEq

/-- Source: `trip.path[0].timestamp` (with a junk default on an empty path,
which the sanitizer's length-2 filter rules out). -/
def startTs (t : Trip) : ℚ := ((t.path.head?).map TPoint.timestamp).getD 0

/-- Source: `trip.path[trip.path.length - 1].timestamp`. -/
def endTs (t : Trip) : ℚ := ((t.path.getLast?).map TPoint.timestamp).getD 0

/-- Source: `aEnd - aStart || 1`: the JS `||` guard replaces a zero duration by 1. -/
def effDur (t : Trip) : ℚ := if endTs t - startTs t = 0 then 1 else endTs t - startTs t

/-- Source: `Math.max(0, Math.min(aEnd, bEnd) - Math.max(aStart, bStart))`. -/
def overlapDuration (a b : Trip) : ℚ :=
  max 0 (min (endTs a) (endTs b) - max (startTs a) (startTs b))

/-- Source: `overlapRatioA > 0.5 || overlapRatioB > 0.5`. -/
def overlapMoreThanHalf (a b : Trip) : Bool :=
  overlapDuration a b / effDur a > 1/2 ∨ overlapDuration a b / effDur b > 1/2

/-- One pass of the inner `j` loop with trip `A` fixed: returns whether
`A` itself got removed, together with the later-starting trips that
survive the pass.  Removed trips are deleted from the list (the JS code
keeps them in the array and skips them via a `removed` index set, which
is equivalent). -/
def scanOne (A : Trip) : List Trip → Bool × List Trip
  | [] => (false, [])
  | B :: tl =>
    if startTs B > endTs A then (false, B :: tl)
    else if overlapMoreThanHalf A B then
      if B.path.length ≤ A.path.length then scanOne A tl
      else (true, B :: tl)
    else
      let r := scanOne A tl
      (r.1, B :: r.2)

theorem scanOne_sublist (A : Trip) : ∀ l : List Trip, (scanOne A l).2.Sublist l := by
  intro l
  induction l with
  | nil => simp [scanOne]
  | cons B tl ih =>
    unfold scanOne
    by_cases h1 : startTs B > endTs A
    · simp [h1]
    · by_cases h2 : overlapMoreThanHalf A B
      · by_cases h3 : B.path.length ≤ A.path.length
        · simp only [if_neg h1, if_pos h2, if_pos h3]
          exact ih.trans (List.sublist_cons_self B tl)
        · simp [h1, h2, h3]
      · simp only [if_neg h1, if_neg h2]
        exact ih.cons₂ B

/-- The outer `i` loop of the greedy de-duplication. -/
def dedupTrips : List Trip → List Trip
  | [] => []
  | A :: rest =>
    if (scanOne A rest).1 then dedupTrips (scanOne A rest).2
    else A :: dedupTrips (scanOne A rest).2
termination_by l => l.length
decreasing_by
  all_goals
    simp only [List.length_cons]
    exact Nat.lt_succ_of_le (scanOne_sublist _ _).length_le

/-- The window intersection + minimum-size filter of `timeFilteredTrips`. -/
def tripWindowKeep (rangeStart rangeEnd : ℚ) (t : Trip) : Bool :=
  2 ≤ t.path.length ∧ endTs t ≥ rangeStart ∧ startTs t ≤ rangeEnd

/-- Sort key: `(a, b) => a.path[0].timestamp - b.path[0].timestamp`. -/
def startLe (a b : Trip) : Bool := startTs a ≤ startTs b

/-- The full `timeFilteredTrips` memo of `LifeChapters.jsx`: window
filter, sort by start time, then greedy overlap removal.  `timeRange`
is the `[0,1]²` window, `minT`/`maxT` the dataset metadata bounds. -/
def timeFilteredTrips (trips : List Trip) (timeRange : ℚ × ℚ) (minT maxT : ℚ) :
    List Trip :=
  let rangeStart := minT + (maxT - minT) * timeRange.1
  let rangeEnd := minT + (maxT - minT) * timeRange.2
  dedupTrips ((trips.filter (tripWindowKeep rangeStart rangeEnd)).mergeSort startLe)

theorem overlapMoreThanHalf_iff (a b : Trip) :
    overlapMoreThanHalf a b = true ↔
      (overlapDuration a b / effDur a > 1/2 ∨ overlapDuration a b / effDur b > 1/2) := by
  simp [overlapMoreThanHalf]

theorem overlapDuration_comm (a b : Trip) : overlapDuration a b = overlapDuration b a := by
  unfold overlapDuration
  rw [min_comm, max_comm (startTs a)]

theorem overlapMoreThanHalf_comm (a b : Trip) :
    overlapMoreThanHalf a b = overlapMoreThanHalf b a := by
  unfold overlapMoreThanHalf
  rw [overlapDuration_comm]
  simp [or_comm]

theorem overlapMoreThanHalf_of_duration_zero {a b : Trip}
    (h : overlapDuration a b = 0) : overlapMoreThanHalf a b = false := by
  simp [overlapMoreThanHalf, h]

theorem overlapDuration_eq_zero_of_late {a b : Trip} (h : endTs a < startTs b) :
    overlapDuration a b = 0 := by
  unfold overlapDuration
  have : min (endTs a) (endTs b) - max (startTs a) (startTs b) ≤ 0 := by
    have h1 : min (endTs a) (endTs b) ≤ endTs a := min_le_left _ _
    have h2 : startTs b ≤ max (startTs a) (startTs b) := le_max_right _ _
    linarith
  exact max_eq_left this

theorem overlap_pos_of_moreThanHalf {a b : Trip}
    (h : overlapMoreThanHalf a b = true) : 0 < overlapDuration a b := by
  rcases (overlapMoreThanHalf_iff a b).1 h with h' | h' <;>
  · by_contra hle
    push_neg at hle
    have h0 : overlapDuration a b = 0 :=
      le_antisymm hle (le_max_left _ _)
    rw [h0, zero_div] at h'
    norm_num at h'

theorem not_late_of_moreThanHalf {a b : Trip}
    (h : overlapMoreThanHalf a b = true) : ¬ endTs a < startTs b := by
  intro hlt
  have := overlap_pos_of_moreThanHalf h
  rw [overlapDuration_eq_zero_of_late hlt] at this
  exact lt_irrefl 0 this

/-- If trip `A` survives its inner scan, then every trip surviving that
scan overlaps `A` by at most 50% (of either duration).  Needs the list
to be sorted by start time, because the scan stops early at the first
trip starting after `A` ends. -/
theorem scanOne_no_overlap (A : Trip) :
    ∀ l : List Trip, List.Pairwise (fun x y => startTs x ≤ startTs y) l →
      (scanOne A l).1 = false →
      ∀ B ∈ (scanOne A l).2, overlapMoreThanHalf A B = false := by
  intro l
  induction l with
  | nil => intro _ _ B hB; simp [scanOne] at hB
  | cons B tl ih =>
    intro hsorted hfalse C hC
    rw [List.pairwise_cons] at hsorted
    unfold scanOne at hfalse hC
    by_cases h1 : startTs B > endTs A
    · rw [if_pos h1] at hC
      rcases List.mem_cons.1 hC with rfl | hCtl
      · exact overlapMoreThanHalf_of_duration_zero (overlapDuration_eq_zero_of_late h1)
      · have : endTs A < startTs C := lt_of_lt_of_le h1 (hsorted.1 C hCtl)
        exact overlapMoreThanHalf_of_duration_zero (overlapDuration_eq_zero_of_late this)
    · rw [if_neg h1] at hfalse hC
      by_cases h2 : overlapMoreThanHalf A B
      · rw [if_pos h2] at hfalse hC
        by_cases h3 : B.path.length ≤ A.path.length
        · rw [if_pos h3] at hfalse hC
          exact ih hsorted.2 hfalse C hC
        · rw [if_neg h3] at hfalse
          simp at hfalse
      · rw [if_neg h2] at hfalse hC
        simp only at hfalse hC
        rcases List.mem_cons.1 hC with rfl | hCtl
        · simpa using h2
        · exact ih hsorted.2 hfalse C hCtl

theorem dedupTrips_sublist : ∀ l : List Trip, (dedupTrips l).Sublist l := by
  intro l
  induction l using dedupTrips.induct with
  | case1 => simp [dedupTrips]
  | case2 A rest hrem ih =>
    rw [dedupTrips, if_pos hrem]
    exact (ih.trans (scanOne_sublist A rest)).trans (List.sublist_cons_self A rest)
  | case3 A rest hrem ih =>
    rw [dedupTrips, if_neg (by simp [hrem])]
    exact (ih.trans (scanOne_sublist A rest)).cons₂ A

/-- Greedy de-duplication invariant: no two surviving trips overlap by
more than 50% of either one's duration. -/
theorem dedupTrips_pairwise :
    ∀ l : List Trip, List.Pairwise (fun x y => startTs x ≤ startTs y) l →
      List.Pairwise (fun a b => overlapMoreThanHalf a b = false) (dedupTrips l) := by
  intro l
  induction l using dedupTrips.induct with
  | case1 => intro _; simp [dedupTrips]
  | case2 A rest hrem ih =>
    intro hsorted
    rw [dedupTrips, if_pos hrem]
    exact ih ((List.pairwise_cons.1 hsorted).2.sublist (scanOne_sublist A rest))
  | case3 A rest hrem ih =>
    intro hsorted
    rw [List.pairwise_cons] at hsorted
    rw [dedupTrips, if_neg (by simp [hrem])]
    refine List.pairwise_cons.2 ⟨?_, ih (hsorted.2.sublist (scanOne_sublist A rest))⟩
    intro B hB
    have hB' : B ∈ (scanOne A rest).2 := (dedupTrips_sublist _).mem hB
    exact scanOne_no_overlap A rest hsorted.2 (by simpa using hrem) B hB'

/-- On an input of exactly one overlapping pair (>50%), the greedy scan
keeps the trip with more path points and a tie keeps the earlier trip. -/
theorem dedupTrips_pair (A B : Trip) (hover : overlapMoreThanHalf A B = true) :
    dedupTrips [A, B] = if B.path.length ≤ A.path.length then [A] else [B] := by
  have hnl : ¬ startTs B > endTs A := by
    simpa [gt_iff_lt] using not_late_of_moreThanHalf hover
  by_cases h3 : B.path.length ≤ A.path.length
  · simp [dedupTrips, scanOne, hnl, hover, h3]
  · simp [dedupTrips, scanOne, hnl, hover, h3]

/-! ### TimelineEncoder / PathSmoother (`animatedTrips` in `LifeChapters.jsx`)

The encoder consumes the sanitized trips.  In wall-clock mode each trip
is interpolated over sparse segments and its virtual timestamps are
distributed over the trip's fractional window of the global time span,
scaled into the 0–10000 virtual budget with a minimum window of 100.
In day-replay mode all trips are merged into one path, smoothed with
Catmull–Rom splines, and timestamps are assigned proportionally to
cumulative traveled distance. -/

/-- Haversine on the rational `[lon, lat]` pairs carried by trip data. -/
noncomputable def havQ (c1 c2 : ℚ × ℚ) : ℝ :=
  haversineKm ((c1.1 : ℝ), (c1.2 : ℝ)) ((c2.1 : ℝ), (c2.2 : ℝ))

/-- One axis of the uniform Catmull–Rom cubic basis. -/
def catmullRom1 (a0 a1 a2 a3 t : ℚ) : ℚ :=
  0.5 * ((2 * a1) + (-a0 + a2) * t + (2 * a0 - 5 * a1 + 4 * a2 - a3) * (t * t) +
    (-a0 + 3 * a1 - 3 * a2 + a3) * (t * t * t))

/-- Source: `catmullRomSpline(p0,p1,p2,p3,numPoints)`: `numPoints + 1` samples at
`t = i / numPoints`, each axis independently. -/
def catmullRomSpline (p0 p1 p2 p3 : ℚ × ℚ) (numPoints : ℕ) : List (ℚ × ℚ) :=
  (List.range (numPoints + 1)).map fun (i : ℕ) =>
    let t : ℚ := (i : ℚ) / (numPoints : ℚ)
    (catmullRom1 p0.1 p1.1 p2.1 p3.1 t, catmullRom1 p0.2 p1.2 p2.2 p3.2 t)

/-- Source: `Math.min(20, Math.max(8, Math.ceil(segDist / 0.2)))`. -/
noncomputable def segSteps (p1 p2 : ℚ × ℚ) : ℕ :=
  (min 20 (max 8 (Int.ceil (havQ p1 p2 / 0.2)))).toNat

/-- Source: `smoothPath`: for paths of ≥3 points, every consecutive pair is
replaced by Catmull–Rom samples (density scaling with the haversine
segment length), with the missing edge neighbors mirrored. -/
noncomputable def smoothPath (pathCoords : List (ℚ × ℚ)) : List (ℚ × ℚ) :=
  if pathCoords.length < 3 then pathCoords
  else
    ((List.range (pathCoords.length - 1)).flatMap fun i =>
      let p0 := if i = 0 then pathCoords.getD 0 (0, 0) else pathCoords.getD (i - 1) (0, 0)
      let p1 := pathCoords.getD i (0, 0)
      let p2 := pathCoords.getD (i + 1) (0, 0)
      let p3 := if pathCoords.length ≤ i + 2 then pathCoords.getD (pathCoords.length - 1) (0, 0)
        else pathCoords.getD (i + 2) (0, 0)
      (catmullRomSpline p0 p1 p2 p3 (segSteps p1 p2)).dropLast) ++
    [pathCoords.getD (pathCoords.length - 1) (0, 0)]

/-- Source: `Math.min(4, Math.max(2, Math.ceil(distance / 2)))`. -/
noncomputable def interpSteps (s e : ℚ × ℚ) : ℕ :=
  (min 4 (max 2 (Int.ceil (havQ s e / 2)))).toNat

/-- Source: `interpolateSegment(start, end)`: straight-line interpolation with
`t = i / (numPoints - 1)`. -/
noncomputable def interpolateSegment (s e : ℚ × ℚ) : List (ℚ × ℚ) :=
  (List.range (interpSteps s e)).map fun (i : ℕ) =>
    let t : ℚ := (i : ℚ) / ((interpSteps s e - 1 : ℕ) : ℚ)
    (s.1 + t * (e.1 - s.1), s.2 + t * (e.2 - s.2))

/-- The sparse-segment interpolation pass of the wall-clock branch: a
segment longer than 2 km is replaced by `interpolateSegment` points
(carrying timestamp 0), otherwise the original point is kept. -/
noncomputable def interpPathGo (prev : TPoint) : List TPoint → List TPoint
  | [] => []
  | curr :: tl =>
    (if 2 < havQ prev.coordinates curr.coordinates then
      ((interpolateSegment prev.coordinates curr.coordinates).tail).map
        (fun xy => TPoint.mk xy 0)
    else [curr]) ++ interpPathGo curr tl

noncomputable def interpPath : List TPoint → List TPoint
  | [] => []
  | p :: rest => p :: interpPathGo p rest

structure EncodedTrip where
  path : List (ℚ × ℚ)
  timestamps : List ℝ
  timeProgress : ℝ
  activityType : Option String := none

/-- Source: `globalMinTime` over every point of every trip (`Infinity` start;
the junk default 0 is only reached when there are no points at all, in
which case the JS code would crash downstream anyway). -/
def globalMinTs (tft : List Trip) : ℚ :=
  ((tft.flatMap fun t => t.path.map TPoint.timestamp).min?).getD 0

def globalMaxTs (tft : List Trip) : ℚ :=
  ((tft.flatMap fun t => t.path.map TPoint.timestamp).max?).getD 0

/-- Source: `globalMaxTime - globalMinTime || 1`. -/
def wallTimeSpan (tft : List Trip) : ℚ :=
  if globalMaxTs tft - globalMinTs tft = 0 then 1 else globalMaxTs tft - globalMinTs tft

/-- Source: `tripStartProgress * 10000`, the first virtual timestamp of a trip. -/
def tripStartVirtual (gmin timeSpan : ℚ) (trip : Trip) : ℚ :=
  (startTs trip - gmin) / timeSpan * 10000

/-- Source: `tripTimeWindow = Math.max((tripEndProgress - tripStartProgress) * 10000, 100)`. -/
def tripTimeWindow (gmin timeSpan : ℚ) (trip : Trip) : ℚ :=
  max (((endTs trip - gmin) / timeSpan - (startTs trip - gmin) / timeSpan) * 10000) 100

/-- The wall-clock encoding of a single trip. -/
noncomputable def encodeWall (gmin timeSpan : ℚ) (trip : Trip) : EncodedTrip :=
  let avgTimestamp : ℚ := (trip.path.foldl (fun s p => s + p.timestamp) 0) / (trip.path.length : ℚ)
  let ip := interpPath trip.path
  let numSegments : ℕ := ip.length - 1
  { path := ip.map TPoint.coordinates
    timestamps := (List.range ip.length).map fun (i : ℕ) =>
      if numSegments = 0 then ((tripStartVirtual gmin timeSpan trip : ℚ) : ℝ)
      else (((tripStartVirtual gmin timeSpan trip +
        ((i : ℚ) / (numSegments : ℚ)) * tripTimeWindow gmin timeSpan trip) : ℚ) : ℝ)
    timeProgress := (((avgTimestamp - gmin) / timeSpan : ℚ) : ℝ)
    activityType := trip.activityType }

/-- The merged coordinate list of the day-replay branch: all trips in
start-time order, concatenating every path's coordinates. -/
def dayAllCoords (tft : List Trip) : List (ℚ × ℚ) :=
  (tft.mergeSort startLe).flatMap fun t => t.path.map TPoint.coordinates

/-- Cumulative haversine distance along a path, starting at 0. -/
noncomputable def dayPathDistances (smoothed : List (ℚ × ℚ)) : List ℝ :=
  List.scanl (fun acc pr => acc + havQ pr.1 pr.2) 0 (smoothed.zip smoothed.tail)

/-- Source: `pathDistances[pathDistances.length - 1] || 1`: the guarded
normalization denominator of the distance-proportional mode. -/
noncomputable def dayTotalDistance (pd : List ℝ) : ℝ :=
  if pd.getLast?.getD 0 = 0 then 1 else pd.getLast?.getD 0

/-- The day-replay branch: merge all trips (sorted by start time) into
one coordinate list, smooth it, and distribute virtual timestamps by
cumulative haversine distance normalized to 0–10000. -/
noncomputable def dayMergeTrips (tft : List Trip) : List EncodedTrip :=
  if (dayAllCoords tft).length < 2 then
    [{ path := dayAllCoords tft
       timestamps := (List.range (dayAllCoords tft).length).map fun (i : ℕ) => ((i : ℝ) * 100)
       timeProgress := 0 }]
  else
    [{ path := smoothPath (dayAllCoords tft)
       timestamps := (dayPathDistances (smoothPath (dayAllCoords tft))).map fun d =>
         d / dayTotalDistance (dayPathDistances (smoothPath (dayAllCoords tft))) * 10000
       timeProgress := 0.5 }]

/-- The `animatedTrips` memo of `LifeChapters.jsx`, as a function of the
sanitized trip list and the day-replay flag. -/
noncomputable def animatedTrips (tft : List Trip) (dayReplayActive : Bool) : List EncodedTrip :=
  if tft.length = 0 then []
  else if dayReplayActive then dayMergeTrips tft
  else tft.map (encodeWall (globalMinTs tft) (wallTimeSpan tft))

theorem foldl_min_le_init (l : List ℚ) : ∀ a : ℚ, l.foldl min a ≤ a := by
  induction l with
  | nil => intro a; simp
  | cons b t ih =>
    intro a
    calc (b :: t).foldl min a = t.foldl min (min a b) := by simp [List.foldl_cons]
    _ ≤ min a b := ih (min a b)
    _ ≤ a := min_le_left _ _

theorem foldl_min_le_mem {l : List ℚ} {x : ℚ} (hx : x ∈ l) :
    ∀ a : ℚ, l.foldl min a ≤ x := by
  induction l with
  | nil => cases hx
  | cons b t ih =>
    intro a
    rcases List.mem_cons.1 hx with rfl | hxt
    · calc (x :: t).foldl min a = t.foldl min (min a x) := by simp [List.foldl_cons]
      _ ≤ min a x := foldl_min_le_init t (min a x)
      _ ≤ x := min_le_right _ _
    · simpa [List.foldl_cons] using ih hxt (min a b)

theorem init_le_foldl_max (l : List ℚ) : ∀ a : ℚ, a ≤ l.foldl max a := by
  induction l with
  | nil => intro a; simp
  | cons b t ih =>
    intro a
    calc a ≤ max a b := le_max_left _ _
    _ ≤ t.foldl max (max a b) := ih (max a b)
    _ = (b :: t).foldl max a := by simp [List.foldl_cons]

theorem mem_le_foldl_max {l : List ℚ} {x : ℚ} (hx : x ∈ l) :
    ∀ a : ℚ, x ≤ l.foldl max a := by
  induction l with
  | nil => cases hx
  | cons b t ih =>
    intro a
    rcases List.mem_cons.1 hx with rfl | hxt
    · calc x ≤ max a x := le_max_right _ _
      _ ≤ t.foldl max (max a x) := init_le_foldl_max t (max a x)
      _ = (x :: t).foldl max a := by simp [List.foldl_cons]
    · simpa [List.foldl_cons] using ih hxt (max a b)

theorem min?_getD_le {l : List ℚ} {x : ℚ} (hx : x ∈ l) : (l.min?).getD 0 ≤ x := by
  cases l with
  | nil => cases hx
  | cons a t =>
    rcases List.mem_cons.1 hx with rfl | hxt
    · simpa [List.min?] using foldl_min_le_init t x
    · simpa [List.min?] using foldl_min_le_mem hxt a

theorem le_max?_getD {l : List ℚ} {x : ℚ} (hx : x ∈ l) : x ≤ (l.max?).getD 0 := by
  cases l with
  | nil => cases hx
  | cons a t =>
    rcases List.mem_cons.1 hx with rfl | hxt
    · simpa [List.max?] using init_le_foldl_max t x
    · simpa [List.max?] using mem_le_foldl_max hxt a

/-- A `Chain' (≤)` over the image of an index-monotone function on `List.range`. -/
theorem chain'_le_range_map {f : ℕ → ℝ} (n : ℕ) (h : ∀ i, f i ≤ f (i + 1)) :
    List.Chain' (· ≤ ·) ((List.range n).map f) := by
  rw [List.chain'_map]
  cases n with
  | zero => simp
  | succ m =>
    rw [List.chain'_range_succ]
    intro k _
    exact h k

theorem chain'_le_scanl {α : Type} {f : ℝ → α → ℝ} (hf : ∀ b x, b ≤ f b x) :
    ∀ (l : List α) (a : ℝ), List.Chain' (· ≤ ·) (List.scanl f a l) := by
  intro l
  induction l with
  | nil => intro a; simp [List.scanl]
  | cons x t ih =>
    intro a
    rw [List.scanl_cons]
    cases t with
    | nil => simpa [List.scanl] using hf a x
    | cons y t2 =>
      rw [List.scanl_cons]
      refine List.chain'_cons.2 ⟨hf a x, ?_⟩
      have h2 := ih (f a x)
      rw [List.scanl_cons] at h2
      simpa using h2

theorem le_of_mem_scanl {α : Type} {f : ℝ → α → ℝ} (hf : ∀ b x, b ≤ f b x) :
    ∀ (l : List α) (a : ℝ) (y : ℝ), y ∈ List.scanl f a l → a ≤ y := by
  intro l
  induction l with
  | nil =>
    intro a y hy
    simp [List.scanl] at hy
    exact hy ▸ le_refl a
  | cons x t ih =>
    intro a y hy
    rw [List.scanl_cons] at hy
    rcases List.mem_cons.1 hy with rfl | hyt
    · exact le_refl y
    · exact le_trans (hf a x) (ih (f a x) y hyt)

/-! ### SpatialAggregator (`aggregateToGrid` in `LifeChapters.jsx`)

Points are bucketed by `floor(coord / cellSize)` per axis; the cell
stores the cell-center as `position`, a visit `count` and a place-label
histogram.  The JS `Map` key is the string
`cellLng.toFixed(4) + "," + cellLat.toFixed(4)`; we model it by the pair
of integers `round(center * 10⁴)` per axis, which determines, and is
determined by, that string for the cell sizes the program uses (0.015
and the 0.02 default — cell centers are then at least 0.0075 in
magnitude, so the string can never be a signed zero `-0.0000`). -/

structure VisitPoint where
  coordinates : ℚ × ℚ
  placeName : Option String := none
  address : Option String := none
deriving DecidableEq

/-- JS `x || alt` on strings: the empty string is falsy. -/
def jsStringOr (o : Option String) (alt : String) : String :=
  match o with
  | some s => if s = "" then alt else s
  | none => alt

/-- Source: `point.placeName || point.address?.split(',')[0] || 'Unknown'`. -/
def placeNameOf (p : VisitPoint) : String :=
  jsStringOr p.placeName
    (jsStringOr (p.address.map fun a => (a.splitOn ",").headD "") "Unknown")

/-- Source: `Math.floor(coord / cellSize) * cellSize + cellSize / 2`. -/
def cellCenter (cellSize coord : ℚ) : ℚ :=
  ⌊coord / cellSize⌋ * cellSize + cellSize / 2

/-- The grid key: `toFixed(4)` of each centroid axis, as `round(x·10⁴)`. -/
def roundKey (pos : ℚ × ℚ) : ℤ × ℤ :=
  (round (pos.1 * 10000), round (pos.2 * 10000))

structure GridCellData where
  position : ℚ × ℚ
  count : ℕ
  locations : List (String × ℕ)
deriving DecidableEq

/-- Source: `cell.locations[placeName] = (cell.locations[placeName] || 0) + 1`. -/
def bumpLoc (name : String) : List (String × ℕ) → List (String × ℕ)
  | [] => [(name, 1)]
  | (n, c) :: tl => if n = name then (n, c + 1) :: tl else (n, c) :: bumpLoc name tl

/-- Insert one point into the insertion-ordered associative grid. -/
def gridAdd (key : ℤ × ℤ) (center : ℚ × ℚ) (name : String) :
    List ((ℤ × ℤ) × GridCellData) → List ((ℤ × ℤ) × GridCellData)
  | [] => [(key, ⟨center, 1, [(name, 1)]⟩)]
  | (k, cell) :: tl =>
    if k = key then (k, ⟨cell.position, cell.count + 1, bumpLoc name cell.locations⟩) :: tl
    else (k, cell) :: gridAdd key center name tl

/-- The loop body of `aggregateToGrid`'s accumulation pass. -/
def gridStep (cellSize : ℚ) (g : List ((ℤ × ℤ) × GridCellData)) (p : VisitPoint) :
    List ((ℤ × ℤ) × GridCellData) :=
  gridAdd (roundKey (cellCenter cellSize p.coordinates.1, cellCenter cellSize p.coordinates.2))
    (cellCenter cellSize p.coordinates.1, cellCenter cellSize p.coordinates.2)
    (placeNameOf p) g

def buildGrid (cellSize : ℚ) (points : List VisitPoint) :
    List ((ℤ × ℤ) × GridCellData) :=
  points.foldl (gridStep cellSize) []

structure GridCell where
  position : ℚ × ℚ
  count : ℕ
  locations : List (String × ℕ)
  topLocation : String
  topLocationCount : ℕ
  uniquePlaces : ℕ
deriving DecidableEq

/-- The top-location pass: highest-count label that is not `'Unknown'`. -/
def topLocOf (locs : List (String × ℕ)) : String × ℕ :=
  locs.foldl (fun acc nc => if acc.2 < nc.2 ∧ nc.1 ≠ "Unknown" then nc else acc)
    ("Unknown", 0)

def aggregateToGrid (points : List VisitPoint) (cellSize : ℚ) : List GridCell :=
  (buildGrid cellSize points).map fun e =>
    { position := e.2.position
      count := e.2.count
      locations := e.2.locations
      topLocation := (topLocOf e.2.locations).1
      topLocationCount := (topLocOf e.2.locations).2
      uniquePlaces := e.2.locations.length }

/-! ### RangeFilter / StatsReducer (`Stats` in `Legend.jsx`)

The total-distance statistic: window-filter the visits, sort them
chronologically, then sum the haversine hops between consecutive
visits, skipping pairs more than 7 days apart and skipping hops of
500 km or more (`if (dist < 500) totalKm += dist`).  Visit coordinates
are real-valued here because the distances are. -/

structure Visit where
  coordinates : ℝ × ℝ
  timestamp : ℚ
  durationMinutes : ℚ := 0
  city : Option String := none

def visitLe (a b : Visit) : Bool := a.timestamp ≤ b.timestamp

def filteredSortedVisits (visits : List Visit) (timeRange : ℚ × ℚ) (minT maxT : ℚ) :
    List Visit :=
  let rangeStart := minT + (maxT - minT) * timeRange.1
  let rangeEnd := minT + (maxT - minT) * timeRange.2
  (visits.filter fun v => rangeStart ≤ v.timestamp ∧ v.timestamp ≤ rangeEnd).mergeSort
    visitLe

/-- The `totalKm` accumulation loop of `Stats`. -/
noncomputable def statsTotalKm (visits : List Visit) (timeRange : ℚ × ℚ)
    (minT maxT : ℚ) : ℝ :=
  let fs := filteredSortedVisits visits timeRange minT maxT
  (fs.zip fs.tail).foldl (fun acc pr =>
    if pr.2.timestamp - pr.1.timestamp > 86400 * 7 then acc
    else if haversineKm pr.1.coordinates pr.2.coordinates < 500 then
      acc + haversineKm pr.1.coordinates pr.2.coordinates
    else acc) 0

/-- The spec sentence's version of the hop rule, for comparison with the
code: a hop is counted when it is at most 500 km ("a hop of exactly
500 km or less is counted"), pairs more than 7 days apart are skipped. -/
noncomputable def specTotalKmLe (visits : List Visit) (timeRange : ℚ × ℚ)
    (minT maxT : ℚ) : ℝ :=
  let fs := filteredSortedVisits visits timeRange minT maxT
  (((fs.zip fs.tail).filter fun pr =>
    ¬ pr.2.timestamp - pr.1.timestamp > 86400 * 7 ∧
      haversineKm pr.1.coordinates pr.2.coordinates ≤ 500).map fun pr =>
    haversineKm pr.1.coordinates pr.2.coordinates).sum

/-- The same pair-filtered sum with the code's strict `< 500` rule. -/
noncomputable def specTotalKmLt (visits : List Visit) (timeRange : ℚ × ℚ)
    (minT maxT : ℚ) : ℝ :=
  let fs := filteredSortedVisits visits timeRange minT maxT
  (((fs.zip fs.tail).filter fun pr =>
    ¬ pr.2.timestamp - pr.1.timestamp > 86400 * 7 ∧
      haversineKm pr.1.coordinates pr.2.coordinates < 500).map fun pr =>
    haversineKm pr.1.coordinates pr.2.coordinates).sum

/-! ### TemporalColorMapper (`getTimeColor` in `LifeChapters.jsx`)

Three linear gradient segments over normalized progress
`p = (t - minTime) / (maxTime - minTime)`, split at 0.33 and 0.66:
electric blue → neon purple → hot pink → electric orange, with alpha
230 / 240 / 250 per segment. -/

structure RGBA where
  r : ℚ
  g : ℚ
  b : ℚ
  a : ℚ
deriving DecidableEq

/-- The gradient as a function of progress (the body of `getTimeColor`
after the normalizing division). -/
def progressColor (progress : ℚ) : RGBA :=
  if progress < 0.33 then
    let t := progress / 0.33
    ⟨0 + t * 147, 212 - t * 61, 255 - t * 42, 230⟩
  else if progress < 0.66 then
    let t := (progress - 0.33) / 0.33
    ⟨147 + t * 108, 151 - t * 91, 213 - t * 45, 240⟩
  else
    let t := (progress - 0.66) / 0.34
    ⟨255, 60 + t * 140, 168 - t * 148, 250⟩

def getTimeColor (timestamp minTime maxTime : ℚ) : RGBA :=
  progressColor ((timestamp - minTime) / (maxTime - minTime))

/-- The progress division of `getTimeColor` has no `|| 1`-style guard:
when `maxTime = minTime` the JS code divides by zero and every channel
becomes `NaN`.  `none` models that undefined result; the guarded sites
of the program never produce it. -/
def getTimeColorChecked (timestamp minTime maxTime : ℚ) : Option RGBA :=
  if maxTime - minTime = 0 then none else some (getTimeColor timestamp minTime maxTime)

/-! ### PlaybackClock (the range-scrub animation of `App.jsx`)

`pauseAnimation` only clears the `animating` flag and leaves
`animationProgress.current` untouched; restarting the effect computes
`startTime = Date.now() - startProgress * duration` with
`duration = 60000`, and each frame emits
`progress = Math.min(elapsed / duration, 1)`. -/

structure ClockState where
  progress : ℚ
  animating : Bool

def pauseAnimation (s : ClockState) : ClockState := { s with animating := false }

/-- Source: `const startTime = Date.now() - (startProgress * duration)`. -/
def resumeStartTime (now : ℚ) (s : ClockState) : ℚ := now - s.progress * 60000

/-- Source: `Math.min(elapsed / duration, 1)` at frame time `now`. -/
def frameProgress (startTime now : ℚ) : ℚ := min ((now - startTime) / 60000) 1

theorem mem_gridAdd {key : ℤ × ℤ} {center : ℚ × ℚ} {name : String} :
    ∀ {g : List ((ℤ × ℤ) × GridCellData)} {e : (ℤ × ℤ) × GridCellData},
      e ∈ gridAdd key center name g → e.1 = key ∨ ∃ e' ∈ g, e.1 = e'.1 := by
  intro g
  induction g with
  | nil =>
    intro e he
    simp only [gridAdd, List.mem_singleton] at he
    subst he
    exact Or.inl rfl
  | cons hd tl ih =>
    intro e he
    obtain ⟨k, cell⟩ := hd
    unfold gridAdd at he
    by_cases hk : k = key
    · rw [if_pos hk] at he
      rcases List.mem_cons.1 he with rfl | hetl
      · exact Or.inr ⟨(k, cell), List.mem_cons_self _ _, rfl⟩
      · exact Or.inr ⟨e, List.mem_cons_of_mem _ hetl, rfl⟩
    · rw [if_neg hk] at he
      rcases List.mem_cons.1 he with rfl | hetl
      · exact Or.inr ⟨(k, cell), List.mem_cons_self _ _, rfl⟩
      · rcases ih hetl with h | ⟨e', he', hkey⟩
        · exact Or.inl h
        · exact Or.inr ⟨e', List.mem_cons_of_mem _ he', hkey⟩

theorem gridAdd_key_inv {key : ℤ × ℤ} {center : ℚ × ℚ} {name : String}
    (hkc : key = roundKey center) :
    ∀ {g : List ((ℤ × ℤ) × GridCellData)},
      (∀ e ∈ g, e.1 = roundKey e.2.position) →
      ∀ e ∈ gridAdd key center name g, e.1 = roundKey e.2.position := by
  intro g
  induction g with
  | nil =>
    intro _ e he
    simp only [gridAdd, List.mem_singleton] at he
    subst he
    exact hkc
  | cons hd tl ih =>
    intro hg e he
    obtain ⟨k, cell⟩ := hd
    unfold gridAdd at he
    by_cases hk : k = key
    · rw [if_pos hk] at he
      rcases List.mem_cons.1 he with rfl | hetl
      · exact hg (k, cell) (List.mem_cons_self _ _)
      · exact hg e (List.mem_cons_of_mem _ hetl)
    · rw [if_neg hk] at he
      rcases List.mem_cons.1 he with rfl | hetl
      · exact hg (k, cell) (List.mem_cons_self _ _)
      · exact ih (fun e' he' => hg e' (List.mem_cons_of_mem _ he')) e hetl

theorem gridAdd_pairwise {key : ℤ × ℤ} {center : ℚ × ℚ} {name : String} :
    ∀ {g : List ((ℤ × ℤ) × GridCellData)},
      List.Pairwise (fun e1 e2 => e1.1 ≠ e2.1) g →
      List.Pairwise (fun e1 e2 => e1.1 ≠ e2.1) (gridAdd key center name g) := by
  intro g
  induction g with
  | nil => intro _; simp [gridAdd]
  | cons hd tl ih =>
    intro hg
    obtain ⟨k, cell⟩ := hd
    rw [List.pairwise_cons] at hg
    unfold gridAdd
    by_cases hk : k = key
    · rw [if_pos hk]
      exact List.pairwise_cons.2 ⟨fun e he => hg.1 e he, hg.2⟩
    · rw [if_neg hk]
      refine List.pairwise_cons.2 ⟨?_, ih hg.2⟩
      intro e he
      rcases mem_gridAdd he with h | ⟨e', he', hkey⟩
      · rw [h]; exact hk
      · rw [hkey]; exact hg.1 e' he'

theorem gridAdd_sum {key : ℤ × ℤ} {center : ℚ × ℚ} {name : String} :
    ∀ g : List ((ℤ × ℤ) × GridCellData),
      ((gridAdd key center name g).map (fun e => e.2.count)).sum =
        (g.map (fun e => e.2.count)).sum + 1 := by
  intro g
  induction g with
  | nil => simp [gridAdd]
  | cons hd tl ih =>
    obtain ⟨k, cell⟩ := hd
    unfold gridAdd
    by_cases hk : k = key
    · rw [if_pos hk]
      simp [List.map_cons, List.sum_cons]
      omega
    · rw [if_neg hk]
      simp only [List.map_cons, List.sum_cons, ih]
      omega

/-- The three `buildGrid` fold invariants at once: total count, key
pairwise-distinctness, and the key/position link. -/
theorem buildGrid_invariants (cellSize : ℚ) (points : List VisitPoint) :
    (((buildGrid cellSize points).map (fun e => e.2.count)).sum = points.length) ∧
    List.Pairwise (fun e1 e2 => e1.1 ≠ e2.1) (buildGrid cellSize points) ∧
    (∀ e ∈ buildGrid cellSize points, e.1 = roundKey e.2.position) := by
  have main : ∀ (pts : List VisitPoint) (g : List ((ℤ × ℤ) × GridCellData)),
      ((pts.foldl (gridStep cellSize) g).map (fun e => e.2.count)).sum =
        (g.map (fun e => e.2.count)).sum + pts.length ∧
      (List.Pairwise (fun e1 e2 => e1.1 ≠ e2.1) g →
        List.Pairwise (fun e1 e2 => e1.1 ≠ e2.1) (pts.foldl (gridStep cellSize) g)) ∧
      ((∀ e ∈ g, e.1 = roundKey e.2.position) →
        ∀ e ∈ pts.foldl (gridStep cellSize) g, e.1 = roundKey e.2.position) := by
    intro pts
    induction pts with
    | nil => intro g; exact ⟨by simp, fun h => by simpa using h, fun h => by simpa using h⟩
    | cons p tl ih =>
      intro g
      simp only [List.foldl_cons, List.length_cons]
      refine ⟨?_, ?_, ?_⟩
      · rw [(ih _).1]
        unfold gridStep
        rw [gridAdd_sum]
        omega
      · intro h
        exact (ih _).2.1 (gridAdd_pairwise h)
      · intro h
        exact (ih _).2.2 (gridAdd_key_inv rfl h)
  have h := main points []
  unfold buildGrid
  exact ⟨by simpa using h.1, h.2.1 (by simp), h.2.2 (by simp)⟩

/-- Unfolding lemma for the `Stats` distance loop: the fold equals the
sum over the gap-and-outlier-filtered consecutive pairs. -/
theorem hops_foldl_eq (l : List (Visit × Visit)) :
    ∀ acc : ℝ,
      l.foldl (fun acc pr =>
        if pr.2.timestamp - pr.1.timestamp > 86400 * 7 then acc
        else if haversineKm pr.1.coordinates pr.2.coordinates < 500 then
          acc + haversineKm pr.1.coordinates pr.2.coordinates
        else acc) acc =
      acc + ((l.filter fun pr =>
        ¬ pr.2.timestamp - pr.1.timestamp > 86400 * 7 ∧
          haversineKm pr.1.coordinates pr.2.coordinates < 500).map fun pr =>
        haversineKm pr.1.coordinates pr.2.coordinates).sum := by
  induction l with
  | nil => intro acc; simp
  | cons p t ih =>
    intro acc
    by_cases h1 : p.2.timestamp - p.1.timestamp > 86400 * 7
    · simp only [List.foldl_cons, List.filter_cons, if_pos h1]
      rw [ih]
      simp [h1]
    · by_cases h2 : haversineKm p.1.coordinates p.2.coordinates < 500
      · simp only [List.foldl_cons, List.filter_cons, if_neg h1, if_pos h2]
        rw [ih]
        have : (¬ p.2.timestamp - p.1.timestamp > 86400 * 7 ∧
            haversineKm p.1.coordinates p.2.coordinates < 500) := ⟨h1, h2⟩
        simp only [this, decide_eq_true_eq, if_pos, List.map_cons, List.sum_cons]
        simp [h1, h2]
        ring
      · simp only [List.foldl_cons, List.filter_cons, if_neg h1, if_neg h2]
        rw [ih]
        simp [h1, h2]

/-- The common three-branch shape of every `getTimeColor` channel. -/
def seg (f1 f2 f3 : ℚ → ℚ) (x : ℚ) : ℚ :=
  if x < 0.33 then f1 x else if x < 0.66 then f2 x else f3 x

theorem progressColor_r (p : ℚ) :
    (progressColor p).r = seg (fun t => 0 + t / 0.33 * 147)
      (fun t => 147 + (t - 0.33) / 0.33 * 108) (fun t => 255) p := by
  by_cases h1 : p < 0.33
  · simp [progressColor, seg, h1]
  · by_cases h2 : p < 0.66 <;> simp [progressColor, seg, h1, h2]

theorem progressColor_g (p : ℚ) :
    (progressColor p).g = seg (fun t => 212 - t / 0.33 * 61)
      (fun t => 151 - (t - 0.33) / 0.33 * 91) (fun t => 60 + (t - 0.66) / 0.34 * 140) p := by
  by_cases h1 : p < 0.33
  · simp [progressColor, seg, h1]
  · by_cases h2 : p < 0.66 <;> simp [progressColor, seg, h1, h2]

theorem progressColor_b (p : ℚ) :
    (progressColor p).b = seg (fun t => 255 - t / 0.33 * 42)
      (fun t => 213 - (t - 0.33) / 0.33 * 45) (fun t => 168 - (t - 0.66) / 0.34 * 148) p := by
  by_cases h1 : p < 0.33
  · simp [progressColor, seg, h1]
  · by_cases h2 : p < 0.66 <;> simp [progressColor, seg, h1, h2]

theorem progressColor_a (p : ℚ) :
    (progressColor p).a = if p < 0.33 then 230 else if p < 0.66 then 240 else 250 := by
  by_cases h1 : p < 0.33
  · simp [progressColor, h1]
  · by_cases h2 : p < 0.66 <;> simp [progressColor, h1, h2]

theorem slope_bound {s K : ℚ} (hs : |s| ≤ K) {p q x y : ℚ}
    (e : x - y = s * (q - p)) : |x - y| ≤ K * |q - p| := by
  rw [e, abs_mul]
  exact mul_le_mul_of_nonneg_right hs (abs_nonneg _)

/-- A continuous three-piece function whose pieces are all `K`-Lipschitz
is `K`-Lipschitz (ordered-argument case, telescoping through the
breakpoints 0.33 and 0.66). -/
theorem seg_lip_ordered {f1 f2 f3 : ℚ → ℚ} {K : ℚ}
    (h1 : ∀ p q, |f1 q - f1 p| ≤ K * |q - p|)
    (h2 : ∀ p q, |f2 q - f2 p| ≤ K * |q - p|)
    (h3 : ∀ p q, |f3 q - f3 p| ≤ K * |q - p|)
    (hc1 : f1 0.33 = f2 0.33) (hc2 : f2 0.66 = f3 0.66)
    {p q : ℚ} (hpq : p ≤ q) :
    |seg f1 f2 f3 q - seg f1 f2 f3 p| ≤ K * |q - p| := by
  unfold seg
  by_cases hp1 : p < 0.33
  · by_cases hq1 : q < 0.33
    · simp only [if_pos hp1, if_pos hq1]
      exact h1 p q
    · by_cases hq2 : q < 0.66
      · simp only [if_pos hp1, if_neg hq1, if_pos hq2]
        have e : f2 q - f1 p = (f2 q - f2 0.33) + (f1 0.33 - f1 p) := by
          rw [hc1]; ring
        calc |f2 q - f1 p| ≤ |f2 q - f2 0.33| + |f1 0.33 - f1 p| := by
              rw [e]; exact abs_add _ _
        _ ≤ K * |(0.66 : ℚ) - 0.66| + (K * |q - 0.33| + K * |0.33 - p|) := by
              have := add_le_add (h2 0.33 q) (h1 p 0.33)
              simpa using this
        _ = K * (q - 0.33) + K * (0.33 - p) := by
              rw [abs_of_nonneg (by linarith : (0 : ℚ) ≤ q - 0.33),
                abs_of_nonneg (by linarith : (0 : ℚ) ≤ (0.33 : ℚ) - p)]
              simp
        _ = K * (q - p) := by ring
        _ = K * |q - p| := by rw [abs_of_nonneg (by linarith : (0 : ℚ) ≤ q - p)]
      · simp only [if_pos hp1, if_neg hq1, if_neg hq2]
        have e : f3 q - f1 p =
            (f3 q - f3 0.66) + (f2 0.66 - f2 0.33) + (f1 0.33 - f1 p) := by
          rw [hc1, hc2]; ring
        calc |f3 q - f1 p|
            ≤ |f3 q - f3 0.66| + |f2 0.66 - f2 0.33| + |f1 0.33 - f1 p| := by
              rw [e]
              exact (abs_add _ _).trans (add_le_add_right (abs_add _ _) _)
        _ ≤ K * |q - 0.66| + K * |(0.66 : ℚ) - 0.33| + K * |(0.33 : ℚ) - p| :=
              add_le_add (add_le_add (h3 0.66 q) (h2 0.33 0.66)) (h1 p 0.33)
        _ = K * (q - 0.66) + K * ((0.66 : ℚ) - 0.33) + K * (0.33 - p) := by
              rw [abs_of_nonneg (by linarith : (0 : ℚ) ≤ q - 0.66),
                abs_of_nonneg (by norm_num : (0 : ℚ) ≤ (0.66 : ℚ) - 0.33),
                abs_of_nonneg (by linarith : (0 : ℚ) ≤ (0.33 : ℚ) - p)]
        _ = K * (q - p) := by ring
        _ = K * |q - p| := by rw [abs_of_nonneg (by linarith : (0 : ℚ) ≤ q - p)]
  · by_cases hp2 : p < 0.66
    · have hq1 : ¬ q < 0.33 := by push_neg at hp1 ⊢; linarith
      by_cases hq2 : q < 0.66
      · simp only [if_neg hp1, if_pos hp2, if_neg hq1, if_pos hq2]
        exact h2 p q
      · simp only [if_neg hp1, if_pos hp2, if_neg hq1, if_neg hq2]
        have e : f3 q - f2 p = (f3 q - f3 0.66) + (f2 0.66 - f2 p) := by
          rw [hc2]; ring
        calc |f3 q - f2 p| ≤ |f3 q - f3 0.66| + |f2 0.66 - f2 p| := by
              rw [e]; exact abs_add _ _
        _ ≤ K * |q - 0.66| + K * |(0.66 : ℚ) - p| :=
              add_le_add (h3 0.66 q) (h2 p 0.66)
        _ = K * (q - 0.66) + K * ((0.66 : ℚ) - p) := by
              rw [abs_of_nonneg (by push_neg at hq2; linarith : (0 : ℚ) ≤ q - 0.66),
                abs_of_nonneg (by linarith : (0 : ℚ) ≤ (0.66 : ℚ) - p)]
        _ = K * (q - p) := by ring
        _ = K * |q - p| := by rw [abs_of_nonneg (by linarith : (0 : ℚ) ≤ q - p)]
    · have hq1 : ¬ q < 0.33 := by push_neg at hp1 ⊢; linarith
      have hq2 : ¬ q < 0.66 := by push_neg at hp2 ⊢; linarith
      simp only [if_neg hp1, if_neg hp2, if_neg hq1, if_neg hq2]
      exact h3 p q

theorem seg_lip {f1 f2 f3 : ℚ → ℚ} {K : ℚ}
    (h1 : ∀ p q, |f1 q - f1 p| ≤ K * |q - p|)
    (h2 : ∀ p q, |f2 q - f2 p| ≤ K * |q - p|)
    (h3 : ∀ p q, |f3 q - f3 p| ≤ K * |q - p|)
    (hc1 : f1 0.33 = f2 0.33) (hc2 : f2 0.66 = f3 0.66)
    (p q : ℚ) : |seg f1 f2 f3 q - seg f1 f2 f3 p| ≤ K * |q - p| := by
  rcases le_total p q with h | h
  · exact seg_lip_ordered h1 h2 h3 hc1 hc2 h
  · rw [abs_sub_comm, abs_sub_comm q p]
    exact seg_lip_ordered h1 h2 h3 hc1 hc2 h

theorem progressColor_r_lip (p q : ℚ) :
    |(progressColor q).r - (progressColor p).r| ≤ 14700/33 * |q - p| := by
  rw [progressColor_r, progressColor_r]
  refine seg_lip ?_ ?_ ?_ (by norm_num) (by norm_num) p q
  · intro x y
    exact slope_bound (s := 14700/33) (by rw [abs_le]; constructor <;> norm_num) (by ring)
  · intro x y
    exact slope_bound (s := 10800/33) (by rw [abs_le]; constructor <;> norm_num) (by ring)
  · intro x y
    exact slope_bound (s := 0) (by rw [abs_le]; constructor <;> norm_num) (by ring)

theorem progressColor_g_lip (p q : ℚ) :
    |(progressColor q).g - (progressColor p).g| ≤ 7000/17 * |q - p| := by
  rw [progressColor_g, progressColor_g]
  refine seg_lip ?_ ?_ ?_ (by norm_num) (by norm_num) p q
  · intro x y
    exact slope_bound (s := -6100/33) (by rw [abs_le]; constructor <;> norm_num) (by ring)
  · intro x y
    exact slope_bound (s := -9100/33) (by rw [abs_le]; constructor <;> norm_num) (by ring)
  · intro x y
    exact slope_bound (s := 7000/17) (by rw [abs_le]; constructor <;> norm_num) (by ring)

theorem progressColor_b_lip (p q : ℚ) :
    |(progressColor q).b - (progressColor p).b| ≤ 7400/17 * |q - p| := by
  rw [progressColor_b, progressColor_b]
  refine seg_lip ?_ ?_ ?_ (by norm_num) (by norm_num) p q
  · intro x y
    exact slope_bound (s := -4200/33) (by rw [abs_le]; constructor <;> norm_num) (by ring)
  · intro x y
    exact slope_bound (s := -4500/33) (by rw [abs_le]; constructor <;> norm_num) (by ring)
  · intro x y
    exact slope_bound (s := -7400/17) (by rw [abs_le]; constructor <;> norm_num) (by ring)

theorem havQ_nonneg (a b : ℚ × ℚ) : 0 ≤ havQ a b := haversineKm_nonneg _ _

theorem havQ_self (c : ℚ × ℚ) : havQ c c = 0 := haversineKm_self _

theorem smoothPath_ne_nil {coords : List (ℚ × ℚ)} (h : coords ≠ []) :
    smoothPath coords ≠ [] := by
  unfold smoothPath
  split
  · exact h
  · simp

theorem interpPath_cons (p : TPoint) (rest : List TPoint) :
    interpPath (p :: rest) = p :: interpPathGo p rest := rfl

theorem interpPath_ne_nil {path : List TPoint} (h : path ≠ []) :
    interpPath path ≠ [] := by
  cases path with
  | nil => exact absurd rfl h
  | cons p rest => rw [interpPath_cons]; simp

/-- The trip's start timestamp occurs among the encoder's global pool of
point timestamps. -/
theorem startTs_mem_pool {tft : List Trip} {trip : Trip} (htrip : trip ∈ tft)
    (hne : trip.path ≠ []) :
    startTs trip ∈ tft.flatMap fun t => t.path.map TPoint.timestamp := by
  rw [List.mem_flatMap]
  refine ⟨trip, htrip, ?_⟩
  cases hp : trip.path with
  | nil => exact absurd hp hne
  | cons p rest => simp [startTs, hp]

theorem endTs_mem_pool {tft : List Trip} {trip : Trip} (htrip : trip ∈ tft)
    (hne : trip.path ≠ []) :
    endTs trip ∈ tft.flatMap fun t => t.path.map TPoint.timestamp := by
  rw [List.mem_flatMap]
  refine ⟨trip, htrip, ?_⟩
  have : endTs trip = (trip.path.getLast hne).timestamp := by
    simp [endTs, List.getLast?_eq_getLast _ hne]
  rw [this]
  exact List.mem_map_of_mem _ (List.getLast_mem hne)

theorem wallTimeSpan_pos (tft : List Trip) : 0 < wallTimeSpan tft := by
  unfold wallTimeSpan
  by_cases hl : (tft.flatMap fun t => t.path.map TPoint.timestamp) = []
  · simp [globalMinTs, globalMaxTs, hl]
  · obtain ⟨x, hx⟩ := List.exists_mem_of_ne_nil _ hl
    have h1 : globalMinTs tft ≤ x := min?_getD_le hx
    have h2 : x ≤ globalMaxTs tft := le_max?_getD hx
    split
    · norm_num
    · rename_i hd
      have : 0 ≤ globalMaxTs tft - globalMinTs tft := by linarith
      exact lt_of_le_of_ne this (Ne.symm hd)

/-- Any value between the global bounds lands in `[0, 1]` after the
span normalization. -/
theorem wallFrac_bounds {tft : List Trip} {x : ℚ}
    (h1 : globalMinTs tft ≤ x) (h2 : x ≤ globalMaxTs tft) :
    0 ≤ (x - globalMinTs tft) / wallTimeSpan tft ∧
      (x - globalMinTs tft) / wallTimeSpan tft ≤ 1 := by
  have hpos := wallTimeSpan_pos tft
  constructor
  · exact div_nonneg (by linarith) hpos.le
  · rw [div_le_one hpos]
    unfold wallTimeSpan
    split
    · rename_i hd
      linarith
    · linarith

theorem tripStartVirtual_bounds {tft : List Trip} {trip : Trip}
    (htrip : trip ∈ tft) (hne : trip.path ≠ []) :
    0 ≤ tripStartVirtual (globalMinTs tft) (wallTimeSpan tft) trip ∧
      tripStartVirtual (globalMinTs tft) (wallTimeSpan tft) trip ≤ 10000 := by
  have hmem := startTs_mem_pool htrip hne
  have h1 : globalMinTs tft ≤ startTs trip := min?_getD_le hmem
  have h2 : startTs trip ≤ globalMaxTs tft := le_max?_getD hmem
  have hb := wallFrac_bounds h1 h2
  unfold tripStartVirtual
  constructor
  · exact mul_nonneg hb.1 (by norm_num)
  · nlinarith [hb.1, hb.2]

theorem tripWindow_ge_100 (gmin timeSpan : ℚ) (trip : Trip) :
    100 ≤ tripTimeWindow gmin timeSpan trip := le_max_right _ _

/-- Source: `startVirtual + window ≤ 10100`: either the window is the trip's own
span fraction (then the sum is the end fraction, at most 10000), or it
is the 100 floor (then the sum is at most 10000 + 100). -/
theorem tripStartVirtual_add_window {tft : List Trip} {trip : Trip}
    (htrip : trip ∈ tft) (hne : trip.path ≠ []) :
    tripStartVirtual (globalMinTs tft) (wallTimeSpan tft) trip +
      tripTimeWindow (globalMinTs tft) (wallTimeSpan tft) trip ≤ 10100 := by
  have hmemE := endTs_mem_pool htrip hne
  have hE2 : endTs trip ≤ globalMaxTs tft := le_max?_getD hmemE
  have hmemS := startTs_mem_pool htrip hne
  have hS1 : globalMinTs tft ≤ startTs trip := min?_getD_le hmemS
  have hEb := wallFrac_bounds (min?_getD_le hmemE) hE2
  have hSb := tripStartVirtual_bounds htrip hne
  unfold tripTimeWindow
  rcases max_cases (((endTs trip - globalMinTs tft) / wallTimeSpan tft -
      (startTs trip - globalMinTs tft) / wallTimeSpan tft) * 10000) 100 with
    ⟨heq, _⟩ | ⟨heq, _⟩
  · rw [heq]
    unfold tripStartVirtual
    nlinarith [hEb.2]
  · rw [heq]
    linarith [hSb.2]

theorem encodeWall_timestamps_spec (gmin timeSpan : ℚ) (trip : Trip) :
    (encodeWall gmin timeSpan trip).timestamps =
      (List.range (interpPath trip.path).length).map (fun (i : ℕ) =>
        if (interpPath trip.path).length - 1 = 0 then
          ((tripStartVirtual gmin timeSpan trip : ℚ) : ℝ)
        else (((tripStartVirtual gmin timeSpan trip +
          ((i : ℚ) / (((interpPath trip.path).length - 1 : ℕ) : ℚ)) *
            tripTimeWindow gmin timeSpan trip) : ℚ) : ℝ)) := rfl

theorem encodeWall_path_spec (gmin timeSpan : ℚ) (trip : Trip) :
    (encodeWall gmin timeSpan trip).path =
      (interpPath trip.path).map TPoint.coordinates := rfl

theorem encodeWall_chain (gmin timeSpan : ℚ) (trip : Trip) :
    List.Chain' (· ≤ ·) (encodeWall gmin timeSpan trip).timestamps := by
  rw [encodeWall_timestamps_spec]
  apply chain'_le_range_map
  intro i
  by_cases hn : (interpPath trip.path).length - 1 = 0
  · simp [hn]
  · simp only [if_neg hn]
    rw [Rat.cast_le]
    have hw : (100 : ℚ) ≤ tripTimeWindow gmin timeSpan trip := tripWindow_ge_100 _ _ _
    have hn' : (0 : ℚ) < (((interpPath trip.path).length - 1 : ℕ) : ℚ) := by
      exact_mod_cast Nat.pos_of_ne_zero hn
    have hdiv : ((i : ℚ)) / (((interpPath trip.path).length - 1 : ℕ) : ℚ) ≤
        (((i + 1 : ℕ) : ℚ)) / (((interpPath trip.path).length - 1 : ℕ) : ℚ) := by
      apply (div_le_div_right hn').2
      push_cast
      linarith
    have := mul_le_mul_of_nonneg_right hdiv (by linarith : (0 : ℚ) ≤
      tripTimeWindow gmin timeSpan trip)
    linarith

theorem encodeWall_length (gmin timeSpan : ℚ) (trip : Trip) :
    (encodeWall gmin timeSpan trip).timestamps.length =
      (encodeWall gmin timeSpan trip).path.length := by
  rw [encodeWall_timestamps_spec, encodeWall_path_spec]
  simp

theorem dayPathDistances_ne_nil (sp : List (ℚ × ℚ)) : dayPathDistances sp ≠ [] := by
  unfold dayPathDistances
  apply List.ne_nil_of_length_pos
  rw [List.length_scanl]
  omega

theorem dayPathDistances_chain (sp : List (ℚ × ℚ)) :
    List.Chain' (· ≤ ·) (dayPathDistances sp) := by
  unfold dayPathDistances
  exact chain'_le_scanl (fun b x => le_add_of_nonneg_right (havQ_nonneg _ _)) _ 0

theorem dayTotalDistance_pos (sp : List (ℚ × ℚ)) :
    0 < dayTotalDistance (dayPathDistances sp) := by
  have hmem : (dayPathDistances sp).getLast?.getD 0 ∈ dayPathDistances sp := by
    rw [List.getLast?_eq_getLast _ (dayPathDistances_ne_nil sp)]
    exact List.getLast_mem _
  have hnn : (0 : ℝ) ≤ (dayPathDistances sp).getLast?.getD 0 :=
    le_of_mem_scanl (fun b x => le_add_of_nonneg_right (havQ_nonneg _ _)) _ 0 _ hmem
  unfold dayTotalDistance
  split
  · norm_num
  · rename_i h
    exact lt_of_le_of_ne hnn (Ne.symm h)

theorem dayPathDistances_length {sp : List (ℚ × ℚ)} (h : sp ≠ []) :
    (dayPathDistances sp).length = sp.length := by
  unfold dayPathDistances
  rw [List.length_scanl, List.length_zip, List.length_tail]
  have : 0 < sp.length := List.length_pos.2 h
  omega

/-! ### Claim theorems -/

/-- The sanitizer sorts before de-duplicating, so the pairwise
no-overlap invariant of `dedupTrips` applies to its output. -/
theorem timeFilteredTrips_pairwise (trips : List Trip) (timeRange : ℚ × ℚ)
    (minT maxT : ℚ) :
    List.Pairwise (fun a b => overlapMoreThanHalf a b = false)
      (timeFilteredTrips trips timeRange minT maxT) := by
  unfold timeFilteredTrips
  apply dedupTrips_pairwise
  refine List.Pairwise.imp ?_ (List.sorted_mergeSort ?_ ?_ _)
  · intro a b hab
    simpa [startLe] using hab
  · intro a b c hab hbc
    simp only [startLe, decide_eq_true_eq] at hab hbc ⊢
    exact le_trans hab hbc
  · intro a b
    simp only [startLe, Bool.or_eq_true, decide_eq_true_eq]
    exact le_total _ _

theorem overlapFalse_symmetric :
    Symmetric (fun a b : Trip => overlapMoreThanHalf a b = false) := by
  intro a b h
  rw [overlapMoreThanHalf_comm]
  exact h

/-- C2: for every input trip list and every time window, no two trips
that both survive the sanitizer's greedy de-duplication scan have time
spans that overlap by more than 50% of either trip's duration. -/
theorem C2_no_overlapping_survivors (trips : List Trip) (timeRange : ℚ × ℚ)
    (minT maxT : ℚ) :
    List.Pairwise (fun a b => overlapMoreThanHalf a b = false)
      (timeFilteredTrips trips timeRange minT maxT) :=
  timeFilteredTrips_pairwise trips timeRange minT maxT

/-- C1 (amended): for every pair of distinct surviving trips the >50%
overlap predicate is false — so at most one member of an overlapping
pair ever survives — and when the de-duplication scan receives exactly
one overlapping pair (>50%), it keeps precisely the trip with more path
points, a tie keeping the earlier-starting trip. -/
theorem C1_overlap_pair_resolution :
    (∀ (trips : List Trip) (timeRange : ℚ × ℚ) (minT maxT : ℚ) (A B : Trip),
      A ∈ timeFilteredTrips trips timeRange minT maxT →
      B ∈ timeFilteredTrips trips timeRange minT maxT →
      A ≠ B → overlapMoreThanHalf A B = false) ∧
    (∀ A B : Trip, overlapMoreThanHalf A B = true →
      dedupTrips [A, B] = if B.path.length ≤ A.path.length then [A] else [B]) := by
  constructor
  · intro trips timeRange minT maxT A B hA hB hne
    exact (timeFilteredTrips_pairwise trips timeRange minT maxT).forall
      overlapFalse_symmetric hA hB hne
  · exact dedupTrips_pair

/-- A degenerate point used to build concrete trips (all claims about
the sanitizer depend only on timestamps and point counts). -/
def cexPt (ts : ℚ) : TPoint := ⟨(0, 0), ts⟩

/-- 3-point trip spanning `[0, 100]`. -/
def cexT1 : Trip := ⟨[cexPt 0, cexPt 50, cexPt 100], none⟩

/-- 4-point trip spanning `[10, 110]` (overlaps `cexT1` by 90%). -/
def cexT2 : Trip := ⟨[cexPt 10, cexPt 40, cexPt 70, cexPt 110], none⟩

/-- 5-point trip spanning `[20, 120]` (overlaps `cexT2` by 90%). -/
def cexT3 : Trip := ⟨[cexPt 20, cexPt 60, cexPt 80, cexPt 90, cexPt 120], none⟩

/-- C1 counterexample: `cexT1` and `cexT2` overlap by more than 50%,
yet the sanitizer's output contains *neither* of them (the greedy scan
first discards `cexT1` in favor of `cexT2`, then discards `cexT2` in
favor of `cexT3`), contradicting "the output contains exactly one of
the two: the trip whose path has more points". -/
theorem C1_counterexample :
    overlapMoreThanHalf cexT1 cexT2 = true ∧
    cexT1 ∉ timeFilteredTrips [cexT1, cexT2, cexT3] (0, 1) 0 200 ∧
    cexT2 ∉ timeFilteredTrips [cexT1, cexT2, cexT3] (0, 1) 0 200 := by
  have hover : overlapMoreThanHalf cexT1 cexT2 = true := by
    norm_num [overlapMoreThanHalf, overlapDuration, effDur, startTs, endTs,
      cexT1, cexT2, cexPt]
  have hout : timeFilteredTrips [cexT1, cexT2, cexT3] (0, 1) 0 200 = [cexT3] := by
    show dedupTrips ((List.filter
        (tripWindowKeep (0 + (200 - 0) * (0, 1).1) (0 + (200 - 0) * (0, 1).2))
        [cexT1, cexT2, cexT3]).mergeSort startLe) = [cexT3]
    rw [show (List.filter
        (tripWindowKeep (0 + (200 - 0) * (0, 1).1) (0 + (200 - 0) * (0, 1).2))
        [cexT1, cexT2, cexT3]) =
        [cexT1, cexT2, cexT3] from by
      norm_num [tripWindowKeep, startTs, endTs, cexT1, cexT2, cexT3, cexPt]]
    rw [List.mergeSort_of_sorted (by
      norm_num [List.pairwise_cons, startLe, startTs, cexT1, cexT2, cexT3, cexPt])]
    norm_num [dedupTrips, scanOne, overlapMoreThanHalf, overlapDuration, effDur,
      startTs, endTs, cexT1, cexT2, cexT3, cexPt]
  rw [hout]
  refine ⟨hover, ?_, ?_⟩ <;> simp [cexT1, cexT2, cexT3, cexPt]

/-- 2-point trip spanning `[0, 100]`. -/
def cwTripA : Trip := ⟨[cexPt 0, cexPt 100], none⟩

theorem C1_witness :
    overlapMoreThanHalf cwTripA cexT2 = true ∧
    dedupTrips [cwTripA, cexT2] = [cexT2] := by
  have hover : overlapMoreThanHalf cwTripA cexT2 = true := by
    norm_num [overlapMoreThanHalf, overlapDuration, effDur, startTs, endTs,
      cwTripA, cexT2, cexPt]
  refine ⟨hover, ?_⟩
  rw [C1_overlap_pair_resolution.2 cwTripA cexT2 hover]
  norm_num [cwTripA, cexT2, cexPt]

/-- C4: for every input point list (at the cell sizes the program uses,
0.015 and the 0.02 default, where the rounded-pair key model coincides
with the JS `toFixed(4)` string key), the cell counts sum to the number
of input points and no two produced cells share a rounded centroid. -/
theorem C4_grid_aggregation (points : List VisitPoint) (cellSize : ℚ)
    (hcs : cellSize = 3/200 ∨ cellSize = 1/50) :
    ((aggregateToGrid points cellSize).map GridCell.count).sum = points.length ∧
    List.Pairwise (fun c1 c2 => roundKey c1.position ≠ roundKey c2.position)
      (aggregateToGrid points cellSize) := by
  obtain ⟨hsum, hpair, hkey⟩ := buildGrid_invariants cellSize points
  constructor
  · rw [← hsum]
    unfold aggregateToGrid
    rw [List.map_map]
    rfl
  · unfold aggregateToGrid
    rw [List.pairwise_map]
    refine hpair.imp_of_mem ?_
    intro e1 e2 h1 h2 hne
    simpa [← hkey e1 h1, ← hkey e2 h2] using hne

def c4Point : VisitPoint := ⟨(1/1000, 1/1000), none, none⟩

theorem C4_witness :
    ((aggregateToGrid [c4Point] (3/200)).map GridCell.count).sum = [c4Point].length ∧
    List.Pairwise (fun c1 c2 => roundKey c1.position ≠ roundKey c2.position)
      (aggregateToGrid [c4Point] (3/200)) :=
  C4_grid_aggregation [c4Point] (3/200) (Or.inl rfl)

/-- C5 (amended): the total-distance statistic equals the sum of
haversine distances over chronologically consecutive visit pairs,
skipping pairs more than 7 days apart and skipping any hop of 500 km
*or more* (only hops strictly below 500 km are counted). -/
theorem C5_stats_total_distance (visits : List Visit) (timeRange : ℚ × ℚ)
    (minT maxT : ℚ) :
    statsTotalKm visits timeRange minT maxT =
      specTotalKmLt visits timeRange minT maxT := by
  unfold statsTotalKm specTotalKmLt
  rw [hops_foldl_eq]
  rw [zero_add]

noncomputable def cexV1 : Visit := ⟨(0, 0), 0, 0, none⟩

/-- One day later and exactly 500 km east along the equator. -/
noncomputable def cexV2 : Visit := ⟨(lon500, 0), 86400, 0, none⟩

/-- C5 counterexample: two visits one day apart whose haversine
distance is exactly 500 km.  The claim says a hop of exactly 500 km is
counted (so the total should be 500); the code's `dist < 500` test
skips it and produces 0. -/
theorem C5_counterexample :
    statsTotalKm [cexV1, cexV2] (0, 1) 0 1728000 = 0 ∧
    specTotalKmLe [cexV1, cexV2] (0, 1) 0 1728000 = 500 := by
  have hd : haversineKm cexV1.coordinates cexV2.coordinates = 500 := by
    show haversineKm (0, 0) (lon500, 0) = 500
    exact haversineKm_lon500
  have hfs : filteredSortedVisits [cexV1, cexV2] (0, 1) 0 1728000 = [cexV1, cexV2] := by
    unfold filteredSortedVisits
    show (List.filter _ [cexV1, cexV2]).mergeSort visitLe = [cexV1, cexV2]
    rw [show (List.filter
        (fun v => decide (0 + (1728000 - 0) * (0, 1).1 ≤ v.timestamp ∧
          v.timestamp ≤ 0 + (1728000 - 0) * (0, 1).2)) [cexV1, cexV2]) =
        [cexV1, cexV2] from by
      norm_num [cexV1, cexV2]]
    exact List.mergeSort_of_sorted (by norm_num [List.pairwise_cons, visitLe, cexV1, cexV2])
  constructor
  · unfold statsTotalKm
    rw [hfs]
    simp only [List.zip, List.zipWith, List.foldl]
    rw [if_neg (by norm_num [cexV1, cexV2]), if_neg (by rw [hd]; norm_num)]
  · unfold specTotalKmLe
    rw [hfs]
    simp only [List.zip, List.zipWith, List.filter]
    rw [show decide (¬ cexV2.timestamp - cexV1.timestamp > 86400 * 7 ∧
        haversineKm cexV1.coordinates cexV2.coordinates ≤ 500) = true from
      decide_eq_true ⟨by norm_num [cexV1, cexV2], by rw [hd]⟩]
    simp [hd]

/-- C6 (amended): the duration and distance ratios of the core guard
their denominators with a `|| 1` fallback (trip durations in the
de-duplication, the wall-clock time span, the day-merge total
distance), but the time-to-color mapping does not: when
`minTime = maxTime` its progress division is an unguarded division by
zero, so the JS result is `NaN` in every channel (modelled as `none`)
rather than a defined color. -/
theorem C6_denominator_guards :
    (∀ t : Trip, effDur t ≠ 0) ∧
    (∀ tft : List Trip, wallTimeSpan tft ≠ 0) ∧
    (∀ pd : List ℝ, dayTotalDistance pd ≠ 0) ∧
    (∀ t m : ℚ, getTimeColorChecked t m m = none) := by
  refine ⟨?_, ?_, ?_, ?_⟩
  · intro t
    unfold effDur
    split
    · norm_num
    · assumption
  · intro tft
    exact (wallTimeSpan_pos tft).ne'
  · intro pd
    unfold dayTotalDistance
    split
    · norm_num
    · assumption
  · intro t m
    simp [getTimeColorChecked]

/-- C6 counterexample: at `minTime = maxTime = 5` the time-to-color
mapping's progress denominator is zero and the mapping is undefined
(`NaN` channels in JS), contradicting "the time-to-color mapping is
defined when minTime equals maxTime". -/
theorem C6_counterexample : getTimeColorChecked 5 5 5 = none := by
  simp [getTimeColorChecked]

/-- C7 (amended): the three color channels are globally Lipschitz in
normalized progress with their maximal per-segment slopes
(147/0.33 for red, 140/0.34 for green, 148/0.34 for blue) — they are
continuous across the 0.33 and 0.66 boundaries — but the alpha channel
is piecewise constant (230 / 240 / 250 per segment) and therefore jumps
by 10 at each boundary. -/
theorem C7_color_continuity :
    (∀ t1 t2 minT maxT : ℚ,
      |(getTimeColor t2 minT maxT).r - (getTimeColor t1 minT maxT).r| ≤
        14700/33 * |(t2 - minT) / (maxT - minT) - (t1 - minT) / (maxT - minT)| ∧
      |(getTimeColor t2 minT maxT).g - (getTimeColor t1 minT maxT).g| ≤
        7000/17 * |(t2 - minT) / (maxT - minT) - (t1 - minT) / (maxT - minT)| ∧
      |(getTimeColor t2 minT maxT).b - (getTimeColor t1 minT maxT).b| ≤
        7400/17 * |(t2 - minT) / (maxT - minT) - (t1 - minT) / (maxT - minT)|) ∧
    (∀ t minT maxT : ℚ, (getTimeColor t minT maxT).a =
      if (t - minT) / (maxT - minT) < 0.33 then 230
      else if (t - minT) / (maxT - minT) < 0.66 then 240 else 250) := by
  constructor
  · intro t1 t2 minT maxT
    unfold getTimeColor
    exact ⟨progressColor_r_lip _ _, progressColor_g_lip _ _, progressColor_b_lip _ _⟩
  · intro t minT maxT
    unfold getTimeColor
    exact progressColor_a _

/-- C7 counterexample: at the 0.33 boundary the alpha channel jumps by
10 while the change in normalized progress is only 0.001, defeating any
per-segment-slope bound (1000 exceeds every per-segment channel slope,
and even 1000 times the progress change is below the jump). -/
theorem C7_counterexample :
    (getTimeColor 33 0 100).a - (getTimeColor (329/10) 0 100).a = 10 ∧
    1000 * |((33 : ℚ) - 0) / (100 - 0) - (((329:ℚ)/10) - 0) / (100 - 0)| < 10 := by
  constructor
  · norm_num [getTimeColor, progressColor]
  · rw [show |((33 : ℚ) - 0) / (100 - 0) - (((329:ℚ)/10) - 0) / (100 - 0)| =
      1/1000 from by rw [abs_of_nonneg] <;> norm_num]
    norm_num

/-- C8: for `minTime ≤ t ≤ maxTime` with `minTime < maxTime`, every
channel of the time-to-color mapping is within render-safe bounds:
colors in `[0, 255]` and alpha within its defined `[230, 250]` range. -/
theorem C8_color_bounds (t minT maxT : ℚ) (h1 : minT ≤ t) (h2 : t ≤ maxT)
    (h3 : minT < maxT) :
    (0 ≤ (getTimeColor t minT maxT).r ∧ (getTimeColor t minT maxT).r ≤ 255) ∧
    (0 ≤ (getTimeColor t minT maxT).g ∧ (getTimeColor t minT maxT).g ≤ 255) ∧
    (0 ≤ (getTimeColor t minT maxT).b ∧ (getTimeColor t minT maxT).b ≤ 255) ∧
    (230 ≤ (getTimeColor t minT maxT).a ∧ (getTimeColor t minT maxT).a ≤ 250) := by
  unfold getTimeColor
  have hp0 : 0 ≤ (t - minT) / (maxT - minT) :=
    div_nonneg (by linarith) (by linarith)
  have hp1 : (t - minT) / (maxT - minT) ≤ 1 := by
    rw [div_le_one (by linarith)]
    linarith
  set p := (t - minT) / (maxT - minT)
  unfold progressColor
  by_cases b1 : p < 0.33
  · rw [if_pos b1]
    have hq0 : 0 ≤ p / 0.33 := div_nonneg hp0 (by norm_num)
    have hq1 : p / 0.33 < 1 := by
      rw [div_lt_one (by norm_num)]
      exact b1
    refine ⟨⟨?_, ?_⟩, ⟨?_, ?_⟩, ⟨?_, ?_⟩, ⟨?_, ?_⟩⟩ <;> · simp only; linarith
  · rw [if_neg b1]
    push_neg at b1
    by_cases b2 : p < 0.66
    · rw [if_pos b2]
      have hq0 : 0 ≤ (p - 0.33) / 0.33 := div_nonneg (by linarith) (by norm_num)
      have hq1 : (p - 0.33) / 0.33 < 1 := by
        rw [div_lt_one (by norm_num)]
        linarith
      refine ⟨⟨?_, ?_⟩, ⟨?_, ?_⟩, ⟨?_, ?_⟩, ⟨?_, ?_⟩⟩ <;> · simp only; linarith
    · rw [if_neg b2]
      push_neg at b2
      have hq0 : 0 ≤ (p - 0.66) / 0.34 := div_nonneg (by linarith) (by norm_num)
      have hq1 : (p - 0.66) / 0.34 ≤ 1 := by
        rw [div_le_one (by norm_num)]
        linarith
      refine ⟨⟨?_, ?_⟩, ⟨?_, ?_⟩, ⟨?_, ?_⟩, ⟨?_, ?_⟩⟩ <;> · simp only; linarith

theorem C8_witness :
    (0 ≤ (getTimeColor 50 0 100).r ∧ (getTimeColor 50 0 100).r ≤ 255) ∧
    (0 ≤ (getTimeColor 50 0 100).g ∧ (getTimeColor 50 0 100).g ≤ 255) ∧
    (0 ≤ (getTimeColor 50 0 100).b ∧ (getTimeColor 50 0 100).b ≤ 255) ∧
    (230 ≤ (getTimeColor 50 0 100).a ∧ (getTimeColor 50 0 100).a ≤ 250) :=
  C8_color_bounds 50 0 100 (by norm_num) (by norm_num) (by norm_num)

/-- C9: pausing the range-scrub clock preserves the accumulated
progress, and on resume every frame (the first one included) emits a
progress value at least the paused progress — the virtual start time
`now - progress * 60000` excludes the real time spent paused, so the
clock never resets to 0 on resume. -/
theorem C9_pause_resume (s : ClockState) (now0 now : ℚ)
    (hp : s.progress ≤ 1) (hn : now0 ≤ now) :
    (pauseAnimation s).progress = s.progress ∧
    s.progress ≤ frameProgress (resumeStartTime now0 (pauseAnimation s)) now := by
  refine ⟨rfl, ?_⟩
  unfold frameProgress resumeStartTime pauseAnimation
  refine le_min ?_ hp
  rw [show (now - (now0 - s.progress * 60000)) / 60000 =
    (now - now0) / 60000 + s.progress from by ring]
  have h0 : 0 ≤ (now - now0) / 60000 := div_nonneg (by linarith) (by norm_num)
  linarith

theorem C9_witness :
    (2 : ℚ)/5 ≤ frameProgress (resumeStartTime 1000 (pauseAnimation ⟨2/5, true⟩)) 1500 :=
  (C9_pause_resume ⟨2/5, true⟩ 1000 1500 (by norm_num) (by norm_num)).2

/-- C3: in both wall-clock mode and distance-proportional day-merge
mode, every encoded path's virtual-timestamp array is non-decreasing
and has exactly the same length as its point array (so a 1-point path
gets a 1-element timestamp array). -/
theorem C3_encoder_monotone (tft : List Trip) (day : Bool) :
    ∀ e ∈ animatedTrips tft day,
      List.Chain' (· ≤ ·) e.timestamps ∧ e.timestamps.length = e.path.length := by
  intro e he
  unfold animatedTrips at he
  by_cases h0 : tft.length = 0
  · rw [if_pos h0] at he
    cases he
  · rw [if_neg h0] at he
    cases day with
    | false =>
      simp only [Bool.false_eq_true, if_false] at he
      rw [List.mem_map] at he
      obtain ⟨trip, -, rfl⟩ := he
      exact ⟨encodeWall_chain _ _ _, encodeWall_length _ _ _⟩
    | true =>
      simp only [if_true] at he
      unfold dayMergeTrips at he
      by_cases hsmall : (dayAllCoords tft).length < 2
      · rw [if_pos hsmall, List.mem_singleton] at he
        subst he
        constructor
        · apply chain'_le_range_map
          intro i
          push_cast
          linarith
        · simp
      · rw [if_neg hsmall, List.mem_singleton] at he
        subst he
        have hne : dayAllCoords tft ≠ [] := by
          intro h
          rw [h] at hsmall
          simp at hsmall
        have hsp : smoothPath (dayAllCoords tft) ≠ [] := smoothPath_ne_nil hne
        constructor
        · simp only
          rw [List.chain'_map]
          refine (dayPathDistances_chain _).imp ?_
          intro a b hab
          have ht := dayTotalDistance_pos (smoothPath (dayAllCoords tft))
          exact mul_le_mul_of_nonneg_right
            ((div_le_div_iff_of_pos_right ht).2 hab) (by norm_num)
        · simp only [List.length_map]
          exact dayPathDistances_length hsp

def c3Trip : Trip := ⟨[⟨(0, 0), 0⟩], none⟩

theorem C3_witness :
    List.Chain' (· ≤ ·)
      ((animatedTrips [c3Trip] true).headD ⟨[], [], 0, none⟩).timestamps ∧
    ((animatedTrips [c3Trip] true).headD ⟨[], [], 0, none⟩).timestamps.length =
      ((animatedTrips [c3Trip] true).headD ⟨[], [], 0, none⟩).path.length := by
  have hd : dayAllCoords [c3Trip] = [(0, 0)] := by
    unfold dayAllCoords
    rw [List.mergeSort_of_sorted (by simp)]
    simp [c3Trip]
  have hne : animatedTrips [c3Trip] true ≠ [] := by
    simp [animatedTrips, dayMergeTrips, hd]
  have hmem : (animatedTrips [c3Trip] true).headD ⟨[], [], 0, none⟩ ∈
      animatedTrips [c3Trip] true := by
    cases h : animatedTrips [c3Trip] true with
    | nil => exact absurd h hne
    | cons a l => simp [h]
  exact C3_encoder_monotone [c3Trip] true _ hmem

theorem encodeWall_head (gmin timeSpan : ℚ) (trip : Trip) (hne : trip.path ≠ []) :
    (encodeWall gmin timeSpan trip).timestamps.head? =
      some ((tripStartVirtual gmin timeSpan trip : ℚ) : ℝ) := by
  rw [encodeWall_timestamps_spec]
  obtain ⟨m, hm⟩ : ∃ m, (interpPath trip.path).length = m + 1 := by
    have h := interpPath_ne_nil hne
    cases hl : (interpPath trip.path).length with
    | zero => exact absurd (List.length_eq_zero.1 hl) h
    | succ m => exact ⟨m, rfl⟩
  rw [hm, List.range_succ_eq_map]
  simp only [List.map_cons, List.head?_cons]
  by_cases hm0 : m = 0 <;> simp [hm0]

theorem encodeWall_mem {tft : List Trip} {trip : Trip} (htrip : trip ∈ tft) :
    encodeWall (globalMinTs tft) (wallTimeSpan tft) trip ∈ animatedTrips tft false := by
  unfold animatedTrips
  rw [if_neg (by
    intro h
    rw [List.length_eq_zero] at h
    subst h
    cases htrip)]
  simp only [Bool.false_eq_true, if_false]
  exact List.mem_map_of_mem _ htrip

theorem encodeWall_ts_bounds {tft : List Trip} {trip : Trip}
    (htrip : trip ∈ tft) (hne : trip.path ≠ []) :
    ∀ ts ∈ (encodeWall (globalMinTs tft) (wallTimeSpan tft) trip).timestamps,
      0 ≤ ts ∧ ts ≤ 10100 := by
  intro ts hts
  rw [encodeWall_timestamps_spec, List.mem_map] at hts
  obtain ⟨i, hi, rfl⟩ := hts
  rw [List.mem_range] at hi
  have hsv := tripStartVirtual_bounds htrip hne
  have hsw := tripStartVirtual_add_window htrip hne
  have hw := tripWindow_ge_100 (globalMinTs tft) (wallTimeSpan tft) trip
  by_cases hn : (interpPath trip.path).length - 1 = 0
  · rw [if_pos hn]
    constructor
    · exact_mod_cast hsv.1
    · have h2 : tripStartVirtual (globalMinTs tft) (wallTimeSpan tft) trip ≤ 10100 := by
        linarith [hsv.2]
      exact_mod_cast h2
  · rw [if_neg hn]
    have hi' : i ≤ (interpPath trip.path).length - 1 := by omega
    have hn' : (0 : ℚ) < (((interpPath trip.path).length - 1 : ℕ) : ℚ) := by
      exact_mod_cast Nat.pos_of_ne_zero hn
    have hr0 : 0 ≤ (i : ℚ) / (((interpPath trip.path).length - 1 : ℕ) : ℚ) :=
      div_nonneg (by positivity) hn'.le
    have hr1 : (i : ℚ) / (((interpPath trip.path).length - 1 : ℕ) : ℚ) ≤ 1 := by
      rw [div_le_one hn']
      exact_mod_cast hi'
    have h0 : (0 : ℚ) ≤ tripStartVirtual (globalMinTs tft) (wallTimeSpan tft) trip +
        (i : ℚ) / (((interpPath trip.path).length - 1 : ℕ) : ℚ) *
          tripTimeWindow (globalMinTs tft) (wallTimeSpan tft) trip := by
      nlinarith [hsv.1, hw, hr0]
    have hup : tripStartVirtual (globalMinTs tft) (wallTimeSpan tft) trip +
        (i : ℚ) / (((interpPath trip.path).length - 1 : ℕ) : ℚ) *
          tripTimeWindow (globalMinTs tft) (wallTimeSpan tft) trip ≤ 10100 := by
      nlinarith [hsw, hw, hr1, hr0]
    constructor
    · exact_mod_cast h0
    · exact_mod_cast hup

def c10Pt (ts : ℚ) : TPoint := ⟨(0, 0), ts⟩

/-- A trip covering the whole global span `[0, 10000]`. -/
def c10TripA : Trip := ⟨[c10Pt 0, c10Pt 10000], none⟩

/-- A 10-second-fraction trip ending at the global max: its span
fraction times 10000 is only 10, so the 100-unit minimum window pushes
its final virtual timestamp past the 10000 budget. -/
def c10TripB : Trip := ⟨[c10Pt 9990, c10Pt 10000], none⟩

/-- C10: in wall-clock mode every virtual timestamp lies in
`[0, 10100]`, the first timestamp of each trip is its start fraction
times 10000 — and the bound 10000 really is exceeded: a short trip
ending at the global maximum gets a final timestamp of 10090. -/
theorem C10_wall_clock_budget :
    (∀ (tft : List Trip) (trip : Trip), trip ∈ tft → (∀ t ∈ tft, t.path ≠ []) →
      encodeWall (globalMinTs tft) (wallTimeSpan tft) trip ∈ animatedTrips tft false ∧
      (encodeWall (globalMinTs tft) (wallTimeSpan tft) trip).timestamps.head? =
        some ((tripStartVirtual (globalMinTs tft) (wallTimeSpan tft) trip : ℚ) : ℝ) ∧
      ∀ ts ∈ (encodeWall (globalMinTs tft) (wallTimeSpan tft) trip).timestamps,
        0 ≤ ts ∧ ts ≤ 10100) ∧
    (∃ e ∈ animatedTrips [c10TripA, c10TripB] false, ∃ ts ∈ e.timestamps, 10000 < ts) := by
  constructor
  · intro tft trip htrip hpaths
    exact ⟨encodeWall_mem htrip,
      encodeWall_head _ _ _ (hpaths trip htrip),
      encodeWall_ts_bounds htrip (hpaths trip htrip)⟩
  · have hgmin : globalMinTs [c10TripA, c10TripB] = 0 := by
      unfold globalMinTs
      norm_num [c10TripA, c10TripB, c10Pt, List.min?, List.foldl, min_def]
    have hgmax : globalMaxTs [c10TripA, c10TripB] = 10000 := by
      unfold globalMaxTs
      norm_num [c10TripA, c10TripB, c10Pt, List.max?, List.foldl, max_def]
    have hspan : wallTimeSpan [c10TripA, c10TripB] = 10000 := by
      unfold wallTimeSpan
      rw [hgmin, hgmax]
      norm_num
    have hip : interpPath c10TripB.path = [c10Pt 9990, c10Pt 10000] := by
      show interpPath [c10Pt 9990, c10Pt 10000] = _
      norm_num [interpPath, interpPathGo, c10Pt, havQ_self]
    have hsv : tripStartVirtual 0 10000 c10TripB = 9990 := by
      norm_num [tripStartVirtual, startTs, c10TripB, c10Pt]
    have hw : tripTimeWindow 0 10000 c10TripB = 100 := by
      norm_num [tripTimeWindow, startTs, endTs, c10TripB, c10Pt, max_def]
    have hts : (encodeWall 0 10000 c10TripB).timestamps =
        [((9990 : ℚ) : ℝ), ((10090 : ℚ) : ℝ)] := by
      rw [encodeWall_timestamps_spec, hip]
      norm_num [List.range_succ, hsv, hw]
    refine ⟨encodeWall 0 10000 c10TripB, ?_, ((10090 : ℚ) : ℝ), ?_, ?_⟩
    · have hm := @encodeWall_mem [c10TripA, c10TripB] c10TripB (by simp)
      rwa [hgmin, hspan] at hm
    · rw [hts]
      simp
    · exact_mod_cast (by norm_num : (10000 : ℚ) < 10090)

theorem C10_witness :
    encodeWall (globalMinTs [c10TripA, c10TripB]) (wallTimeSpan [c10TripA, c10TripB])
      c10TripB ∈ animatedTrips [c10TripA, c10TripB] false ∧
    (encodeWall (globalMinTs [c10TripA, c10TripB]) (wallTimeSpan [c10TripA, c10TripB])
      c10TripB).timestamps.head? =
      some ((tripStartVirtual (globalMinTs [c10TripA, c10TripB])
        (wallTimeSpan [c10TripA, c10TripB]) c10TripB : ℚ) : ℝ) := by
  have h := C10_wall_clock_budget.1 [c10TripA, c10TripB] c10TripB (by simp)
    (by
      intro t ht
      rcases List.mem_cons.1 ht with rfl | ht'
      · simp [c10TripA, c10Pt]
      · rcases List.mem_cons.1 ht' with rfl | ht''
        · simp [c10TripB, c10Pt]
        · cases ht'')
  exact ⟨h.1, h.2.1⟩

end LifeMap
